import Mathlib

/-!
Shallow embedding of the core of the `faroese-false-friends` daily puzzle
game (TypeScript sources under `src/`): the hangman guess state machine
(`src/src/lib/hangman.ts`), the stats/streak ledger and persistence loads
(`src/src/lib/storage.ts`), puzzle-catalog validation and day-based
selection (`src/src/lib/puzzles.ts`, the hangman puzzle module), the
date-indexing helpers (`daily.ts` / `hangmanPuzzles.ts`), and the share-text
builders of the two game components.

JS strings are modelled as `String`/`List Char` (one entry per code point,
matching `for (const c of s)` iteration), JS numbers holding integers as
`Nat`/`Int`, JS `Set` as a first-occurrence-ordered duplicate-free list,
and fallible operations as `Option`/`Except`.
-/

namespace FFF

/-! ### Letter normalization and the guessable alphabet (`hangman.ts`) -/

/-- `norm` on a single code point: `toLocaleLowerCase("fo-FO")` restricted to
the characters the game can meet.  ASCII uppercase and the Latin-1 uppercase
block (`À`..`Þ` except `×`, which covers `Á Ð Í Ó Ú Ý Æ Ø`) map to their
lowercase forms 0x20 above; everything else is unchanged. -/
def normChar (c : Char) : Char :=
  if 'A' ≤ c ∧ c ≤ 'Z' then Char.ofNat (c.toNat + 32)
  else if 0xC0 ≤ c.toNat ∧ c.toNat ≤ 0xDE ∧ c.toNat ≠ 0xD7 then Char.ofNat (c.toNat + 32)
  else c

/-- `norm` on a JS string: each code point is lowercased. -/
def normStr (s : List Char) : List Char := s.map normChar

/-- The character class of `LETTER_RE = /^[a-záððíóúýæø]$/`. -/
def letterRE (c : Char) : Bool :=
  ('a' ≤ c && c ≤ 'z') || c = 'á' || c = 'ð' || c = 'í' || c = 'ó'
    || c = 'ú' || c = 'ý' || c = 'æ' || c = 'ø'

/-- `LETTER_RE.test(s)`: the regex is anchored (`^...$`), so it accepts
exactly the one-character strings whose character is in the class. -/
def testLetterRE (s : List Char) : Bool :=
  match s with
  | [c] => letterRE c
  | _ => false

/-- `isGuessableLetter(chRaw)`: normalize, then test against `LETTER_RE`. -/
def isGuessableStr (chRaw : List Char) : Bool := testLetterRE (normStr chRaw)

/-! ### JS `Set` of characters, as a first-occurrence-ordered list -/

/-- `Set.add`: append the element unless already present. -/
def jsSetAdd (l : List Char) (c : Char) : List Char := if c ∈ l then l else l ++ [c]

/-- `new Set(xs)` followed by spreading back to an array: first-occurrence
deduplication. -/
def jsSetList (l : List Char) : List Char := l.foldl jsSetAdd []

/-! ### Hangman engine (`src/src/lib/hangman.ts`) -/

structure HangmanPuzzle where
  id : String
  solution : String
  hint : Option String := none
deriving DecidableEq, Repr

inductive Status where
  | playing
  | won
  | lost
deriving DecidableEq, Repr

structure HangmanState where
  guesses : List Char
  wrong : Nat
  status : Status
deriving DecidableEq, Repr

def MAX_LIVES : Nat := 6

/-- `solutionLetters(solution)`: the set of distinct normalized guessable
letters of the solution, in first-appearance order. -/
def solutionLetters (solution : String) : List Char :=
  solution.data.foldl
    (fun s raw =>
      let ch := normChar raw
      if isGuessableStr [ch] then jsSetAdd s ch else s)
    []

/-- One output character of `mask`. -/
def maskChar (guesses : List Char) (raw : Char) : Char :=
  let ch := normChar raw
  if ¬ isGuessableStr [ch] then raw
  else if ch ∈ guesses then raw
  else '•'

/-- `mask(solution, guesses)`: the loop `out += ...` over the solution's
characters. -/
def mask (solution : String) (guesses : List Char) : String :=
  String.mk (solution.data.foldl
    (fun out raw =>
      let ch := normChar raw
      if ¬ isGuessableStr [ch] then out ++ [raw]
      else if ch ∈ guesses then out ++ [raw]
      else out ++ ['•'])
    [])

/-- `nextState(puzzle, state, letterRaw)`, the guess transition.  The raw
input is a JS string (a list of code points); `norm` lowercases it and the
anchored regex accepts only single guessable letters. -/
def nextState (puzzle : HangmanPuzzle) (state : HangmanState) (letterRaw : List Char) :
    HangmanState :=
  if state.status ≠ Status.playing then state
  else
    match normStr letterRaw with
    | [letter] =>
      if ¬ letterRE (normChar letter) then state
      else
        let guesses0 := jsSetList state.guesses
        if letter ∈ guesses0 then state
        else
          let guesses := guesses0 ++ [letter]
          let needed := solutionLetters puzzle.solution
          let wrong := state.wrong + (if letter ∈ needed then 0 else 1)
          let won := needed.all fun l => guesses.contains l
          let lost := MAX_LIVES ≤ wrong
          { guesses := guesses,
            wrong := wrong,
            status := if won then Status.won else if lost then Status.lost else Status.playing }
    | _ => state

/-- `initialState()` from the hangman game component. -/
def initialState : HangmanState := { guesses := [], wrong := 0, status := Status.playing }

/-- The state after a sequence of raw guesses starting from the fresh state. -/
def run (puzzle : HangmanPuzzle) (inputs : List (List Char)) : HangmanState :=
  inputs.foldl (nextState puzzle) initialState

/-! ### Local calendar dates

A local calendar date is its year/month/day triple.  `daysFromCivil` and
`civilFromDays` convert between such a triple and the count of calendar days
since 1970-01-01 (the standard Gregorian civil-day bijection); they model the
arithmetic a JS `Date` performs when local midnights are subtracted and the
millisecond difference divided by 86 400 000. -/

structure CivilDate where
  y : Int
  m : Int
  d : Int
deriving DecidableEq, Repr

def daysFromCivil (c : CivilDate) : Int :=
  let y := if c.m ≤ 2 then c.y - 1 else c.y
  let era := y.fdiv 400
  let yoe := y - era * 400
  let mp := (c.m + 9).emod 12
  let doy := (153 * mp + 2).fdiv 5 + c.d - 1
  let doe := yoe * 365 + yoe.fdiv 4 - yoe.fdiv 100 + doy
  era * 146097 + doe - 719468

def civilFromDays (z0 : Int) : CivilDate :=
  let z := z0 + 719468
  let era := z.fdiv 146097
  let doe := z - era * 146097
  let yoe := (doe - doe.fdiv 1460 + doe.fdiv 36524 - doe.fdiv 146096).fdiv 365
  let y := yoe + era * 400
  let doy := doe - (365 * yoe + yoe.fdiv 4 - yoe.fdiv 100)
  let mp := (5 * doy + 2).fdiv 153
  let d := doy - (153 * mp + 2).fdiv 5 + 1
  let m := mp + (if mp < 10 then 3 else -9)
  { y := y + (if m ≤ 2 then 1 else 0), m := m, d := d }

def msPerDay : Int := 86400000

/-- A JS runtime timezone, as far as the date code observes it: the UTC
offset (ms) in effect at an instant, and for each civil day the instant of
its local midnight (what `new Date(y, m-1, d)` / `.getTime()` yields). -/
structure TZ where
  offset : Int → Int
  midnight : Int → Int

/-- The local civil-day number of an instant: local clock milliseconds,
floor-divided by a day.  `getFullYear/getMonth/getDate` of a JS `Date` are
the components of this day. -/
def localDay (tz : TZ) (t : Int) : Int := (t + tz.offset t).fdiv msPerDay

def getComponents (tz : TZ) (t : Int) : CivilDate := civilFromDays (localDay tz t)

def pad2 (n : Int) : String := (if n < 10 then "0" else "") ++ toString n

/-- `toISODate(d)` (`daily.ts`): zero-padded `YYYY-MM-DD` from the local
components. -/
def toISODate (tz : TZ) (t : Int) : String :=
  let c := getComponents tz t
  toString c.y ++ "-" ++ pad2 c.m ++ "-" ++ pad2 c.d

/-- `daysSinceStart(today, startISO)` (`daily.ts`): truncate both the start
date and `today` to local midnight instants, and floor-divide the
millisecond difference by a day. -/
def daysSinceStart (tz : TZ) (t : Int) (startISO : CivilDate) : Int :=
  let a := tz.midnight (daysFromCivil startISO)
  let b := tz.midnight (localDay tz t)
  (b - a).fdiv msPerDay

/-- The quiz epoch `START_DATE = "2025-12-23"`. -/
def START_DATE : CivilDate := { y := 2025, m := 12, d := 23 }

/-- The hangman epoch instant: `new Date("2025-01-02T00:00:00")`, i.e. the
local midnight of 2025-01-02 in the runtime timezone. -/
def hangStartInstant (tz : TZ) : Int := tz.midnight (daysFromCivil { y := 2025, m := 1, d := 2 })

/-- `dayIndexFor(date)` (the hangman puzzle module): floor-divide the raw
millisecond difference of the two instants by a day — no truncation to
local calendar components. -/
def dayIndexFor (tz : TZ) (t : Int) : Int := (t - hangStartInstant tz).fdiv msPerDay

/-! ### Stats ledger (`src/src/lib/storage.ts`) -/

structure DayResult where
  date : CivilDate
  choiceIndex : Int
  correct : Bool
deriving DecidableEq, Repr

structure Stats where
  played : Nat
  wins : Nat
  streak : Nat
  maxStreak : Nat
  lastPlayed : Option CivilDate := none
deriving DecidableEq, Repr

/-- The local-calendar-day difference the streak rule computes:
`Math.round((todayDate - lastDate) / 86400000)` on the two local midnights,
which is the difference of the civil-day numbers. -/
def diffDaysLocal (today last : CivilDate) : Int :=
  daysFromCivil today - daysFromCivil last

/-- `applyResultToStats(stats, result)`: counts, streak rule, `maxStreak`,
`lastPlayed`.  Pure by construction (the source copies the record with
`{ ...stats }` and never writes through `stats`). -/
def applyResultToStats (stats : Stats) (result : DayResult) : Stats :=
  let next := { stats with played := stats.played + 1 }
  let next := if result.correct then { next with wins := next.wins + 1 } else next
  let next :=
    if result.correct then
      let streak :=
        match next.lastPlayed with
        | none => 1
        | some lp => if diffDaysLocal result.date lp = 1 then next.streak + 1 else 1
      { next with streak := streak, maxStreak := max next.maxStreak streak }
    else
      { next with streak := 0 }
  { next with lastPlayed := some result.date }

/-! ### Persistence loads (`src/src/lib/storage.ts`)

`localStorage.getItem` is modelled by the `Option String` already looked up
(`none` = absent key); `JSON.parse` followed by the unchecked cast is an
arbitrary partial parse `String → Option α` (`none` = the parse threw).
`if (!raw)` is falsy both for `null` and for the empty string. -/

def defaultStats : Stats := { played := 0, wins := 0, streak := 0, maxStreak := 0 }

def loadStats (raw : Option String) (parse : String → Option Stats) : Stats :=
  match raw with
  | none => defaultStats
  | some s =>
    if s = "" then defaultStats
    else match parse s with
      | some v => v
      | none => defaultStats

def loadDayResult (raw : Option String) (parse : String → Option DayResult) :
    Option DayResult :=
  match raw with
  | none => none
  | some s =>
    if s = "" then none
    else match parse s with
      | some v => some v
      | none => none

def loadDayResultV2 {α : Type} (raw : Option String) (parse : String → Option α) : Option α :=
  match raw with
  | none => none
  | some s =>
    if s = "" then none
    else match parse s with
      | some v => some v
      | none => none

/-! ### Catalog validation (`src/src/lib/puzzles.ts`, hangman puzzle module)

A fetched JSON payload that is not an array is `none`; within a record, a
`choices` value that is not an array is `none`, and an `answerIndex` that is
not a number is `none`.  A missing/empty `word` or `prompt` is the empty
string (both are falsy under `!p.word`). -/

structure RawQuizPuzzle where
  id : String
  word : String
  prompt : String
  choices : Option (List String)
  answerIndex : Option Int
  explain : Option String := none
deriving DecidableEq, Repr

def validatePuzzleAt (i : Nat) (p : RawQuizPuzzle) : Except String Unit :=
  if p.word = "" ∨ p.prompt = "" then Except.error s!"Puzzle {i} missing word/prompt"
  else
    match p.choices with
    | none => Except.error s!"Puzzle {i} must have 4 choices"
    | some cs =>
      if cs.length ≠ 4 then Except.error s!"Puzzle {i} must have 4 choices"
      else
        match p.answerIndex with
        | none => Except.error s!"Puzzle {i} answerIndex must be 0..3"
        | some n =>
          if n < 0 ∨ 3 < n then Except.error s!"Puzzle {i} answerIndex must be 0..3"
          else Except.ok ()

def validatePuzzlesFrom (i : Nat) : List RawQuizPuzzle → Except String Unit
  | [] => Except.ok ()
  | p :: rest =>
    match validatePuzzleAt i p with
    | Except.error e => Except.error e
    | Except.ok _ => validatePuzzlesFrom (i + 1) rest

/-- `loadPuzzles` after a successful fetch and `res.json()`: validate the
payload's shape and return the full list, or abort with the first error. -/
def loadPuzzles (payload : Option (List RawQuizPuzzle)) : Except String (List RawQuizPuzzle) :=
  match payload with
  | none => Except.error "puzzles.json is empty."
  | some l =>
    if l.length = 0 then Except.error "puzzles.json is empty."
    else
      match validatePuzzlesFrom 0 l with
      | Except.error e => Except.error e
      | Except.ok _ => Except.ok l

/-- `loadHangmanPuzzles` after a successful fetch: the payload must be a
non-empty array. -/
def loadHangmanPuzzles (payload : Option (List HangmanPuzzle)) :
    Except String (List HangmanPuzzle) :=
  match payload with
  | none => Except.error "Hangman puzzle list is empty."
  | some l =>
    if l.length = 0 then Except.error "Hangman puzzle list is empty."
    else Except.ok l

/-! ### Day-index selection (`pickTodayPuzzle` / `pickTodayHangman`) -/

/-- `((dayIndex % len) + len) % len` with JS `%` (truncating remainder). -/
def pickIndex (len : Nat) (dayIndex : Int) : Int :=
  ((dayIndex.tmod len) + len).tmod len

/-- The shared selection logic: index the list at `pickIndex`.  JS indexing
out of range yields `undefined`, modelled by `Option`. -/
def pickAt {α : Type} (puzzles : List α) (dayIndex : Int) : Option (α × Int) :=
  (puzzles.get? (pickIndex puzzles.length dayIndex).toNat).map fun p => (p, dayIndex)

def pickTodayPuzzle (puzzles : List RawQuizPuzzle) (dayIndex : Int) :
    Option (RawQuizPuzzle × Int) :=
  pickAt puzzles dayIndex

def pickTodayHangman (puzzles : List HangmanPuzzle) (dayIndex : Int) :
    Option (HangmanPuzzle × Int) :=
  pickAt puzzles dayIndex

/-! ### Share-text builders

Each `share()` closure reads the picked puzzle only for its `!picked` null
guard (plus, in the quiz, the displayed `word`); the text is assembled from
the date, the day's outcome, the streak and the countdown. -/

/-- `share()` of the first hangman component (`HangmanGame.tsx`). -/
def shareHangmanV1 (picked : Option HangmanPuzzle) (dateISO : String)
    (state : HangmanState) (stats : Stats) (countdown : String) : Option String :=
  match picked with
  | none => none
  | some _ =>
    if state.status = Status.playing then none
    else
      let title := "Orðafellan Hangman — " ++ dateISO
      let outcome := if state.status = Status.won then "✅" else "❌"
      let score := toString (MAX_LIVES - state.wrong) ++ "/" ++ toString MAX_LIVES
      let streak := "Streak: " ++ toString stats.streak
      let next := "New in: " ++ countdown
      some (title ++ "\n" ++ outcome ++ " " ++ score ++ "\n" ++ streak ++ "\n" ++ next)

/-- `share()` of the archive-browsing hangman component (second variant). -/
def shareHangmanV2 (picked : Option HangmanPuzzle) (dateISO : String)
    (state : HangmanState) (stats : Stats) (countdown : String) : Option String :=
  match picked with
  | none => none
  | some _ =>
    if state.status = Status.playing then none
    else
      let title := "Hangman (Orðafellan) — " ++ dateISO
      let correctIcons := String.mk (List.replicate (MAX_LIVES - state.wrong) '✅')
      let wrongIcons := String.mk (List.replicate state.wrong '❌')
      let icons := wrongIcons ++ correctIcons
      let streak := "Streak: " ++ toString stats.streak
      let next := "Nýggj gáta um: " ++ countdown ++ " tímar"
      some (title ++ "\n" ++ icons ++ "\n" ++ streak ++ "\n" ++ next
        ++ "\nhttps://www.ordafellan.fo/")

/-- `share()` of the quiz component (`App.tsx`). -/
def shareQuiz (picked : Option RawQuizPuzzle) (dayResult : Option DayResult)
    (dateISO : String) (stats : Stats) : Option String :=
  match picked, dayResult with
  | some p, some r =>
    let title := "Faroese False Friends — " ++ dateISO
    let line := p.word ++ " " ++ (if r.correct then "✅" else "❌")
    let streak := "Streak: " ++ toString stats.streak
    some (title ++ "\n" ++ line ++ "\n" ++ streak)
  | _, _ => none

/-- Substring test on character lists (used to state that a share text does
contain a word). -/
def leadsList : List Char → List Char → Bool
  | [], _ => true
  | _ :: _, [] => false
  | a :: as, b :: bs => a = b && leadsList as bs

def subList (needle hay : List Char) : Bool :=
  (List.range (hay.length + 1)).any fun i => leadsList needle (hay.drop i)

/-! ### Basic lemmas about the JS-set model and `mask` -/

theorem mem_jsSetAdd {l : List Char} {x c : Char} : c ∈ jsSetAdd l x ↔ c ∈ l ∨ c = x := by
  unfold jsSetAdd
  split
  · next hx =>
    constructor
    · exact fun h => Or.inl h
    · rintro (h | rfl)
      · exact h
      · exact hx
  · simp

theorem mem_foldl_jsSetAdd (l : List Char) (acc : List Char) (c : Char) :
    c ∈ l.foldl jsSetAdd acc ↔ c ∈ acc ∨ c ∈ l := by
  induction l generalizing acc with
  | nil => simp
  | cons x rest ih =>
    simp only [List.foldl_cons, ih, mem_jsSetAdd, List.mem_cons]
    tauto

theorem mem_jsSetList {l : List Char} {c : Char} : c ∈ jsSetList l ↔ c ∈ l := by
  unfold jsSetList
  rw [mem_foldl_jsSetAdd]
  simp

theorem nodup_jsSetAdd {l : List Char} (x : Char) (h : l.Nodup) : (jsSetAdd l x).Nodup := by
  unfold jsSetAdd
  split
  · exact h
  · next hx => simpa [List.nodup_append] using ⟨h, hx⟩

theorem nodup_foldl_jsSetAdd (l : List Char) (acc : List Char) (h : acc.Nodup) :
    (l.foldl jsSetAdd acc).Nodup := by
  induction l generalizing acc with
  | nil => exact h
  | cons x rest ih => exact ih _ (nodup_jsSetAdd x h)

theorem nodup_jsSetList (l : List Char) : (jsSetList l).Nodup :=
  nodup_foldl_jsSetAdd l [] List.nodup_nil

theorem foldl_jsSetAdd_eq_append (l : List Char) : ∀ acc : List Char, l.Nodup →
    (∀ x ∈ l, x ∉ acc) → l.foldl jsSetAdd acc = acc ++ l := by
  induction l with
  | nil => intro acc _ _; simp
  | cons x rest ih =>
    intro acc hl hdisj
    have hx : x ∉ acc := hdisj x (List.mem_cons_self x rest)
    have hstep : jsSetAdd acc x = acc ++ [x] := by unfold jsSetAdd; simp [hx]
    have hdisj' : ∀ y ∈ rest, y ∉ acc ++ [x] := by
      intro y hy
      simp only [List.mem_append, List.mem_singleton]
      rintro (h | rfl)
      · exact hdisj y (List.mem_cons_of_mem x hy) h
      · exact (List.nodup_cons.mp hl).1 hy
    rw [List.foldl_cons, hstep, ih (acc ++ [x]) (List.Nodup.of_cons hl) hdisj']
    simp

theorem jsSetList_eq_self {l : List Char} (h : l.Nodup) : jsSetList l = l := by
  unfold jsSetList
  simpa using foldl_jsSetAdd_eq_append l [] h (by simp)

theorem toFinset_jsSetList (l : List Char) : (jsSetList l).toFinset = l.toFinset := by
  ext c
  simp [List.mem_toFinset, mem_jsSetList]

theorem mask_foldl (g : List Char) (sol out : List Char) :
    (sol.foldl
      (fun out raw =>
        let ch := normChar raw
        if ¬ isGuessableStr [ch] then out ++ [raw]
        else if ch ∈ g then out ++ [raw]
        else out ++ ['•'])
      out) = out ++ sol.map (maskChar g) := by
  induction sol generalizing out with
  | nil => simp
  | cons raw rest ih =>
    rw [List.foldl_cons, ih]
    have hstep :
        (let ch := normChar raw
          if ¬ isGuessableStr [ch] then out ++ [raw]
          else if ch ∈ g then out ++ [raw]
          else out ++ ['•']) = out ++ [maskChar g raw] := by
      unfold maskChar
      by_cases h1 : isGuessableStr [normChar raw] = true
      · by_cases h2 : normChar raw ∈ g
        · simp [h1, h2]
        · simp [h1, h2]
      · simp [h1]
    rw [hstep]
    simp

theorem mask_data (sol : String) (g : List Char) :
    (mask sol g).data = sol.data.map (maskChar g) := by
  show (String.mk _).data = _
  rw [mask_foldl]
  rfl

/-! ### C10 — masking preserves length and positions -/

/-- C10: for every solution string and guessed-letter set, `mask` returns a
string with exactly as many characters as the solution, and the character at
every position is the per-character rendering of the solution's character at
that same position (itself for non-letters and guessed letters, the
placeholder for unguessed letters) — masking never changes the length or
shifts positions. -/
theorem mask_preserves_length_and_positions (sol : String) (g : List Char) :
    (mask sol g).length = sol.length
      ∧ ∀ i : Nat, (mask sol g).data.get? i = (sol.data.get? i).map (maskChar g) := by
  constructor
  · show (mask sol g).data.length = sol.data.length
    rw [mask_data, List.length_map]
  · intro i
    rw [mask_data, List.get?_map]

/-! ### C7 — masking reproduces the solution character by character -/

/-- C7: at every position of the solution, `mask` passes a character that is
not a guessable letter through unchanged, renders a letter whose normalized
form was guessed as the original character of the solution, and renders an
unguessed letter as the placeholder glyph `•`. -/
theorem mask_char_cases (sol : String) (g : List Char) (i : Nat) (c : Char)
    (h : sol.data.get? i = some c) :
    (isGuessableStr [normChar c] = false → (mask sol g).data.get? i = some c)
      ∧ (isGuessableStr [normChar c] = true → normChar c ∈ g →
          (mask sol g).data.get? i = some c)
      ∧ (isGuessableStr [normChar c] = true → normChar c ∉ g →
          (mask sol g).data.get? i = some '•') := by
  have hm : (mask sol g).data.get? i = some (maskChar g c) := by
    rw [mask_data, List.get?_map, h]
    rfl
  refine ⟨fun h1 => ?_, fun h1 h2 => ?_, fun h1 h2 => ?_⟩
  · rw [hm]
    unfold maskChar
    simp [h1]
  · rw [hm]
    unfold maskChar
    simp [h1, h2]
  · rw [hm]
    unfold maskChar
    simp [h1, h2]

/-- Witness for C7: the spec's worked example `mask("AB CD", {a})`, position 0
(the guessed letter `A` stays `A`). -/
theorem mask_char_cases_witness :
    (isGuessableStr [normChar 'A'] = false → (mask "AB CD" ['a']).data.get? 0 = some 'A')
      ∧ (isGuessableStr [normChar 'A'] = true → normChar 'A' ∈ ['a'] →
          (mask "AB CD" ['a']).data.get? 0 = some 'A')
      ∧ (isGuessableStr [normChar 'A'] = true → normChar 'A' ∉ ['a'] →
          (mask "AB CD" ['a']).data.get? 0 = some '•') :=
  mask_char_cases "AB CD" ['a'] 0 'A' rfl

/-! ### C2 — the stats/streak update rule -/

/-- C2: `applyResultToStats` increments `played` always and `wins` exactly on
a correct result; on a correct result the streak becomes 1 with no
`lastPlayed`, extends by 1 exactly on a local-calendar-day difference of 1,
and resets to 1 on any other difference; an incorrect result zeroes the
streak unconditionally; afterwards `maxStreak` is the maximum of the old
`maxStreak` and the new streak, and `lastPlayed` is the result's date.  The
Lean model is pure by construction, as is the source (it copies the record). -/
theorem applyResultToStats_spec (stats : Stats) (result : DayResult) :
    (applyResultToStats stats result).played = stats.played + 1
      ∧ (applyResultToStats stats result).wins
          = stats.wins + (if result.correct then 1 else 0)
      ∧ (result.correct = true → stats.lastPlayed = none →
          (applyResultToStats stats result).streak = 1)
      ∧ (∀ lp, result.correct = true → stats.lastPlayed = some lp →
          ((diffDaysLocal result.date lp = 1 →
              (applyResultToStats stats result).streak = stats.streak + 1)
            ∧ (diffDaysLocal result.date lp ≠ 1 →
              (applyResultToStats stats result).streak = 1)))
      ∧ (result.correct = false → (applyResultToStats stats result).streak = 0)
      ∧ (applyResultToStats stats result).maxStreak
          = max stats.maxStreak (applyResultToStats stats result).streak
      ∧ (applyResultToStats stats result).lastPlayed = some result.date := by
  rcases hc : result.correct with _ | _
  · simp [applyResultToStats, hc]
  · rcases hl : stats.lastPlayed with _ | lp
    · simp [applyResultToStats, hc, hl]
    · by_cases hd : diffDaysLocal result.date lp = 1
      · simp [applyResultToStats, hc, hl, hd]
      · simp [applyResultToStats, hc, hl, hd]

/-! ### C8 — persistence loads fall back to defaults, never fail -/

/-- C8: `loadStats`, `loadDayResult` and `loadDayResultV2` return the
documented default (zeroed stats, respectively `null`) when the stored value
is absent or fails to parse; all three are total functions of the stored
value, so no input makes them raise. -/
theorem load_defaults (α : Type) (s : String) (pS : String → Option Stats)
    (pD : String → Option DayResult) (pV : String → Option α)
    (hS : pS s = none) (hD : pD s = none) (hV : pV s = none) :
    loadStats none pS = defaultStats
      ∧ loadStats (some s) pS = defaultStats
      ∧ loadDayResult none pD = none
      ∧ loadDayResult (some s) pD = none
      ∧ loadDayResultV2 none pV = none
      ∧ loadDayResultV2 (some s) pV = none := by
  refine ⟨rfl, ?_, rfl, ?_, rfl, ?_⟩
  · simp only [loadStats]
    split
    · rfl
    · rw [hS]
  · simp only [loadDayResult]
    split
    · rfl
    · rw [hD]
  · simp only [loadDayResultV2]
    split
    · rfl
    · rw [hV]

/-- Witness for C8: a stored value `"\x7bcorrupt"` on which every parse fails. -/
theorem load_defaults_witness :
    loadStats none (fun _ => none) = defaultStats
      ∧ loadStats (some "\x7bcorrupt") (fun _ => none) = defaultStats
      ∧ loadDayResult none (fun _ => none) = none
      ∧ loadDayResult (some "\x7bcorrupt") (fun _ => none) = none
      ∧ loadDayResultV2 none (fun _ => (none : Option Nat)) = none
      ∧ loadDayResultV2 (some "\x7bcorrupt") (fun _ => (none : Option Nat)) = none :=
  load_defaults Nat "\x7bcorrupt" (fun _ => none) (fun _ => none) (fun _ => none) rfl rfl rfl

/-! ### C3 — the share texts and the puzzle's word/solution -/

/-- A concrete quiz puzzle whose displayed word is `Gift`. -/
def c3quiz : RawQuizPuzzle :=
  { id := "1", word := "Gift", prompt := "Hvat merkir hetta?",
    choices := some ["poison", "present", "marriage", "fish"], answerIndex := some 2 }

def c3res : DayResult := { date := { y := 2026, m := 1, d := 1 }, choiceIndex := 2, correct := true }

def c3stats : Stats := { played := 1, wins := 1, streak := 1, maxStreak := 1 }

def c3text : String := "Faroese False Friends — 2026-01-01\nGift ✅\nStreak: 1"

/-- Counterexample to C3: the quiz variant's share text does contain the
puzzle's `word` — the assembled text holds `Gift` as a substring. -/
theorem quizShare_contains_word :
    shareQuiz (some c3quiz) (some c3res) "2026-01-01" c3stats = some c3text
      ∧ subList c3quiz.word.data c3text.data = true := by
  constructor
  · rfl
  · decide

/-- C3 (amended): the hangman share variants assemble their text from the
date, outcome, wrong count, streak and countdown only — the text is
independent of the picked puzzle, in particular of its solution; the quiz
share depends on the puzzle only through its displayed `word` (which it does
include) and never on the answer data (`choices` / `answerIndex`). -/
theorem share_independent_of_solution (p p' : HangmanPuzzle) (q q' : RawQuizPuzzle)
    (r : DayResult) (dISO : String) (st : HangmanState) (stats : Stats) (cd : String)
    (hw : q.word = q'.word) :
    shareHangmanV1 (some p) dISO st stats cd = shareHangmanV1 (some p') dISO st stats cd
      ∧ shareHangmanV2 (some p) dISO st stats cd = shareHangmanV2 (some p') dISO st stats cd
      ∧ shareQuiz (some q) (some r) dISO stats = shareQuiz (some q') (some r) dISO stats := by
  refine ⟨rfl, rfl, ?_⟩
  simp only [shareQuiz, hw]

/-- A second concrete quiz puzzle with the same word but different prompt,
choices and answer. -/
def c3quizB : RawQuizPuzzle :=
  { id := "2", word := "Gift", prompt := "Other prompt?",
    choices := some ["w", "x", "y", "z"], answerIndex := some 0 }

def hangPuzzleA : HangmanPuzzle := { id := "h1", solution := "KATT" }

def hangPuzzleB : HangmanPuzzle := { id := "h2", solution := "ÆÐAFUGLUR" }

def wonStateEx : HangmanState := { guesses := ['k', 'a', 't'], wrong := 0, status := Status.won }

/-- Witness for the amended C3 at concrete puzzles that differ in solution
(hangman) and in prompt/choices/answer (quiz). -/
theorem share_independent_of_solution_witness :
    shareHangmanV1 (some hangPuzzleA) "2026-01-01" wonStateEx c3stats "01:02:03"
      = shareHangmanV1 (some hangPuzzleB) "2026-01-01" wonStateEx c3stats "01:02:03"
      ∧ shareHangmanV2 (some hangPuzzleA) "2026-01-01" wonStateEx c3stats "01:02:03"
      = shareHangmanV2 (some hangPuzzleB) "2026-01-01" wonStateEx c3stats "01:02:03"
      ∧ shareQuiz (some c3quiz) (some c3res) "2026-01-01" c3stats
      = shareQuiz (some c3quizB) (some c3res) "2026-01-01" c3stats :=
  share_independent_of_solution hangPuzzleA hangPuzzleB c3quiz c3quizB
    c3res "2026-01-01" wonStateEx c3stats "01:02:03" rfl

/-! ### C5 — modular day-index selection -/

theorem pickIndex_spec (len : Nat) (h : 0 < len) (d : Int) :
    ∃ k : Nat, pickIndex len d = (k : Int) ∧ k < len := by
  unfold pickIndex
  cases d with
  | ofNat n =>
    refine ⟨(n % len + len) % len, ?_, Nat.mod_lt _ h⟩
    have h1 : (Int.ofNat n).tmod ((len : Nat) : Int) = ((n % len : Nat) : Int) := rfl
    rw [h1]
    have h2 : ((n % len : Nat) : Int) + ((len : Nat) : Int)
        = ((n % len + len : Nat) : Int) := by push_cast; ring
    rw [h2]
    rfl
  | negSucc n =>
    have hs : (n + 1) % len < len := Nat.mod_lt _ h
    refine ⟨(len - (n + 1) % len) % len, ?_, Nat.mod_lt _ h⟩
    have h1 : (Int.negSucc n).tmod ((len : Nat) : Int) = -(((n + 1) % len : Nat) : Int) := rfl
    rw [h1]
    have h2 : -(((n + 1) % len : Nat) : Int) + ((len : Nat) : Int)
        = ((len - (n + 1) % len : Nat) : Int) := by
      push_cast [Nat.cast_sub hs.le]
      ring
    rw [h2]
    rfl

/-- C5: for every non-empty list of puzzles and every integer day index
(negative included), both selectors succeed and return exactly the list
element at index `((d % L) + L) % L` (JS truncating `%`), paired with the
day index; selection is a pure function of its inputs (the embedding is a
function, so identical inputs give identical results definitionally). -/
theorem pick_mod_formula (qs : List RawQuizPuzzle) (hs : List HangmanPuzzle) (d : Int)
    (hq : qs ≠ []) (hh : hs ≠ []) :
    (∃ p, qs.get? (pickIndex qs.length d).toNat = some p
        ∧ pickTodayPuzzle qs d = some (p, d))
      ∧ (∃ p, hs.get? (pickIndex hs.length d).toNat = some p
        ∧ pickTodayHangman hs d = some (p, d)) := by
  constructor
  · obtain ⟨k, hk, hkl⟩ := pickIndex_spec qs.length (List.length_pos.mpr hq) d
    have hlen : (pickIndex qs.length d).toNat < qs.length := by
      rw [hk]
      simpa using hkl
    refine ⟨qs.get ⟨_, hlen⟩, List.get?_eq_get hlen, ?_⟩
    simp [pickTodayPuzzle, pickAt, List.get?_eq_get hlen]
  · obtain ⟨k, hk, hkl⟩ := pickIndex_spec hs.length (List.length_pos.mpr hh) d
    have hlen : (pickIndex hs.length d).toNat < hs.length := by
      rw [hk]
      simpa using hkl
    refine ⟨hs.get ⟨_, hlen⟩, List.get?_eq_get hlen, ?_⟩
    simp [pickTodayHangman, pickAt, List.get?_eq_get hlen]

/-- Witness for C5: three quiz puzzles and two hangman puzzles at the
negative day index `-4` (wrapping to indices 2 and 0). -/
theorem pick_mod_formula_witness :
    (∃ p, [c3quiz, c3quiz, c3quiz].get?
          (pickIndex [c3quiz, c3quiz, c3quiz].length (-4)).toNat = some p
        ∧ pickTodayPuzzle [c3quiz, c3quiz, c3quiz] (-4) = some (p, -4))
      ∧ (∃ p, [({ id := "h1", solution := "KATT" } : HangmanPuzzle),
              { id := "h2", solution := "HUNDUR" }].get?
          (pickIndex 2 (-4)).toNat = some p
        ∧ pickTodayHangman [{ id := "h1", solution := "KATT" },
              { id := "h2", solution := "HUNDUR" }] (-4) = some (p, -4)) :=
  pick_mod_formula [c3quiz, c3quiz, c3quiz]
    [{ id := "h1", solution := "KATT" }, { id := "h2", solution := "HUNDUR" }] (-4)
    (List.cons_ne_nil _ _) (List.cons_ne_nil _ _)

/-! ### C9 — catalog shape validation -/

/-- The shape contract of one quiz record: non-falsy `word` and `prompt`, an
array of exactly 4 choices, a numeric `answerIndex` in `0..3`. -/
def entryOk (p : RawQuizPuzzle) : Prop :=
  p.word ≠ "" ∧ p.prompt ≠ "" ∧ (∃ cs, p.choices = some cs ∧ cs.length = 4)
    ∧ ∃ n, p.answerIndex = some n ∧ 0 ≤ n ∧ n ≤ 3

theorem validatePuzzleAt_ok_iff (i : Nat) (p : RawQuizPuzzle) :
    validatePuzzleAt i p = Except.ok () ↔ entryOk p := by
  constructor
  · intro h
    unfold validatePuzzleAt at h
    split at h
    · cases h
    · next h1 =>
      push_neg at h1
      split at h
      · cases h
      · next cs hc =>
        split at h
        · cases h
        · next h2 =>
          push_neg at h2
          split at h
          · cases h
          · next n ha =>
            split at h
            · cases h
            · next h3 =>
              push_neg at h3
              exact ⟨h1.1, h1.2, ⟨cs, hc, h2⟩, ⟨n, ha, by omega, by omega⟩⟩
  · rintro ⟨hw, hp, ⟨cs, hc, hlen⟩, n, ha, hn0, hn3⟩
    unfold validatePuzzleAt
    rw [if_neg (not_or.mpr ⟨hw, hp⟩), hc]
    simp only []
    rw [if_neg (not_not.mpr hlen), ha]
    simp only []
    rw [if_neg (by omega)]

theorem validatePuzzlesFrom_ok_iff : ∀ (l : List RawQuizPuzzle) (i : Nat),
    validatePuzzlesFrom i l = Except.ok () ↔ ∀ p ∈ l, entryOk p := by
  intro l
  induction l with
  | nil => intro i; simp [validatePuzzlesFrom]
  | cons p rest ih =>
    intro i
    constructor
    · intro h
      unfold validatePuzzlesFrom at h
      split at h
      · cases h
      · next u hv =>
        intro q hq
        rcases List.mem_cons.mp hq with rfl | hq'
        · exact (validatePuzzleAt_ok_iff i q).mp (by rw [hv])
        · exact ((ih (i + 1)).mp h) q hq'
    · intro h
      have h1 : validatePuzzleAt i p = Except.ok () :=
        (validatePuzzleAt_ok_iff i p).mpr (h p (List.mem_cons_self p rest))
      unfold validatePuzzlesFrom
      rw [h1]
      exact (ih (i + 1)).mpr fun q hq => h q (List.mem_cons_of_mem p hq)

/-- C9: `loadPuzzles` succeeds exactly when the payload is a non-empty array
whose every record has a non-empty `word` and `prompt`, exactly 4 choices
and an `answerIndex` in `0..3`, and then returns the full list; any
violation aborts the load with an error and no partial list.
`loadHangmanPuzzles` succeeds exactly when the payload is a non-empty array,
returning it whole. -/
theorem catalog_validation (qp : Option (List RawQuizPuzzle))
    (hp : Option (List HangmanPuzzle)) :
    ((∃ l, loadPuzzles qp = Except.ok l)
        ↔ ∃ l, qp = some l ∧ l ≠ [] ∧ ∀ p ∈ l, entryOk p)
      ∧ (∀ l, loadPuzzles qp = Except.ok l → qp = some l)
      ∧ ((∃ l, loadHangmanPuzzles hp = Except.ok l) ↔ ∃ l, hp = some l ∧ l ≠ [])
      ∧ (∀ l, loadHangmanPuzzles hp = Except.ok l → hp = some l) := by
  refine ⟨?_, ?_, ?_, ?_⟩
  · constructor
    · rintro ⟨l, hl⟩
      unfold loadPuzzles at hl
      split at hl
      · cases hl
      · next l' =>
        split at hl
        · cases hl
        · next hlen =>
          split at hl
          · cases hl
          · next u hv =>
            cases hl
            exact ⟨l, rfl, fun he => hlen (by simp [he]),
              (validatePuzzlesFrom_ok_iff l 0).mp (by rw [hv])⟩
    · rintro ⟨l, rfl, hne, hok⟩
      refine ⟨l, ?_⟩
      unfold loadPuzzles
      simp only []
      rw [if_neg (by simpa using hne), (validatePuzzlesFrom_ok_iff l 0).mpr hok]
  · intro l hl
    unfold loadPuzzles at hl
    split at hl
    · cases hl
    · next l' =>
      split at hl
      · cases hl
      · split at hl
        · cases hl
        · cases hl
          rfl
  · constructor
    · rintro ⟨l, hl⟩
      unfold loadHangmanPuzzles at hl
      split at hl
      · cases hl
      · next l' =>
        split at hl
        · cases hl
        · next hlen =>
          cases hl
          exact ⟨l, rfl, fun he => hlen (by simp [he])⟩
    · rintro ⟨l, rfl, hne⟩
      refine ⟨l, ?_⟩
      unfold loadHangmanPuzzles
      simp only []
      rw [if_neg (by simpa using hne)]
  · intro l hl
    unfold loadHangmanPuzzles at hl
    split at hl
    · cases hl
    · split at hl
      · cases hl
      · cases hl
        rfl

/-! ### C4 — day indexing and time-of-day

`toISODate` and `daysSinceStart` factor through the local civil day, so two
instants on the same local calendar day always agree (next theorem, over an
arbitrary timezone).  `dayIndexFor` does not: it floor-divides raw epoch
milliseconds, so when a DST transition moves the local midnight off the
24-hour grid of the epoch instant, one local calendar day straddles two
index values (divergence theorem below, at the Faroese 2025 spring
transition). -/

theorem sameLocalDay_iso_daysSinceStart (tz : TZ) (x y : Int) (e : CivilDate)
    (h : localDay tz x = localDay tz y) :
    toISODate tz x = toISODate tz y ∧ daysSinceStart tz x e = daysSinceStart tz y e := by
  unfold toISODate getComponents daysSinceStart
  rw [h]
  exact ⟨rfl, rfl⟩

/-- The Faroese timezone in 2025: UTC+0, UTC+1 between the last Sundays of
March and October (transitions at 01:00 UTC). -/
def faroeSpring : Int := daysFromCivil { y := 2025, m := 3, d := 30 } * msPerDay + 3600000

def faroeFall : Int := daysFromCivil { y := 2025, m := 10, d := 26 } * msPerDay + 3600000

def faroeOffset (t : Int) : Int := if faroeSpring ≤ t ∧ t < faroeFall then 3600000 else 0

def faroeMidnight (n : Int) : Int := n * msPerDay - faroeOffset (n * msPerDay)

def faroe2025 : TZ := { offset := faroeOffset, midnight := faroeMidnight }

/-- 2025-03-31 00:30 local Faroese time (the day after the spring DST
transition). -/
def c4t1 : Int := daysFromCivil { y := 2025, m := 3, d := 31 } * msPerDay - 3600000 + 1800000

/-- 2025-03-31 12:00 local Faroese time. -/
def c4t2 : Int := daysFromCivil { y := 2025, m := 3, d := 31 } * msPerDay + 39600000

/-- C4 (code bug): the two instants lie on the same local calendar day
2025-03-31 and agree under `toISODate` and `daysSinceStart`, yet
`dayIndexFor` maps them to different day indices (87 vs 88), because it
divides raw epoch milliseconds instead of using local calendar components. -/
theorem dayIndexFor_dst_divergence :
    localDay faroe2025 c4t1 = localDay faroe2025 c4t2
      ∧ toISODate faroe2025 c4t1 = "2025-03-31"
      ∧ toISODate faroe2025 c4t2 = "2025-03-31"
      ∧ daysSinceStart faroe2025 c4t1 START_DATE = daysSinceStart faroe2025 c4t2 START_DATE
      ∧ dayIndexFor faroe2025 c4t1 = 87
      ∧ dayIndexFor faroe2025 c4t2 = 88 := by
  refine ⟨by decide, by decide, by decide, by decide, by decide, by decide⟩

/-! ### C1 — the guess transition -/

theorem all_contains_iff (needed gs : List Char) :
    (needed.all fun l => gs.contains l) = true ↔ needed.toFinset ⊆ gs.toFinset := by
  rw [List.all_eq_true]
  constructor
  · intro h x hx
    rw [List.mem_toFinset] at hx ⊢
    exact List.mem_of_elem_eq_true (h x hx)
  · intro h x hx
    exact List.elem_eq_true_of_mem (by simpa using h (by simpa using hx))

/-- The effective branch of `nextState`: in progress, single guessable
normalized letter, not yet guessed. -/
theorem nextState_eq_of_effective (p : HangmanPuzzle) (s : HangmanState) (raw : List Char)
    (c : Char) (hst : s.status = Status.playing) (hn : normStr raw = [c])
    (hg : letterRE (normChar c) = true) (hne : c ∉ s.guesses) :
    nextState p s raw =
      { guesses := jsSetList s.guesses ++ [c],
        wrong := s.wrong + (if c ∈ solutionLetters p.solution then 0 else 1),
        status :=
          if (solutionLetters p.solution).all
              (fun l => (jsSetList s.guesses ++ [c]).contains l)
            then Status.won
          else if MAX_LIVES ≤ s.wrong + (if c ∈ solutionLetters p.solution then 0 else 1)
            then Status.lost
          else Status.playing } := by
  unfold nextState
  rw [if_neg (by simp [hst]), hn]
  simp only []
  rw [if_neg (by simp [hg]), if_neg (fun hmem => hne (mem_jsSetList.mp hmem))]

/-- C1: `nextState` returns the state unchanged when the game is not in
progress, when the normalized input is not a single guessable letter, or
when the letter was already guessed; otherwise the new guess set is the old
set plus the normalized letter, `wrong` grows by 1 exactly when the letter
is absent from the solution's required-letter set, and the new status is
`won` when every required letter is now guessed, else `lost` when
`wrong ≥ 6`, else `playing`.  The final conjunct restates terminality:
from `won` or `lost`, every further guess is a no-op. -/
theorem nextState_spec (p : HangmanPuzzle) (s : HangmanState) (raw : List Char) :
    (s.status ≠ Status.playing → nextState p s raw = s)
      ∧ (isGuessableStr (normStr raw) = false → nextState p s raw = s)
      ∧ (∀ c, normStr raw = [c] → c ∈ s.guesses → nextState p s raw = s)
      ∧ (∀ c, s.status = Status.playing → normStr raw = [c] →
          isGuessableStr (normStr raw) = true → c ∉ s.guesses →
          (nextState p s raw).guesses.toFinset = insert c s.guesses.toFinset
            ∧ (nextState p s raw).wrong
                = s.wrong + (if c ∈ solutionLetters p.solution then 0 else 1)
            ∧ (nextState p s raw).status
                = (if (solutionLetters p.solution).toFinset ⊆ (nextState p s raw).guesses.toFinset
                    then Status.won
                  else if MAX_LIVES ≤ (nextState p s raw).wrong then Status.lost
                  else Status.playing))
      ∧ (s.status = Status.won ∨ s.status = Status.lost →
          ∀ raw2, nextState p s raw2 = s) := by
  refine ⟨?_, ?_, ?_, ?_, ?_⟩
  · intro h
    unfold nextState
    rw [if_pos h]
  · intro h
    unfold nextState
    by_cases hst : s.status ≠ Status.playing
    · rw [if_pos hst]
    · rw [if_neg hst]
      rcases hn : normStr raw with _ | ⟨c, rest⟩
      · simp only []
      · rcases rest with _ | ⟨c2, rest2⟩
        · rw [hn] at h
          have h' : letterRE (normChar c) = false := by
            simpa [isGuessableStr, testLetterRE, normStr] using h
          simp only []
          rw [if_pos (by simp [h'])]
        · simp only []
  · intro c hn hc
    unfold nextState
    by_cases hst : s.status ≠ Status.playing
    · rw [if_pos hst]
    · rw [if_neg hst, hn]
      simp only []
      by_cases hg : letterRE (normChar c) = true
      · rw [if_neg (by simp [hg]), if_pos (mem_jsSetList.mpr hc)]
      · rw [if_pos (by simpa using hg)]
  · intro c hst hn hg hne
    have hg' : letterRE (normChar c) = true := by
      rw [hn] at hg
      simpa [isGuessableStr, testLetterRE, normStr] using hg
    rw [nextState_eq_of_effective p s raw c hst hn hg' hne]
    refine ⟨?_, rfl, ?_⟩
    · ext x
      simp [List.mem_toFinset, mem_jsSetList, or_comm]
    · by_cases hwon : ((solutionLetters p.solution).all
          (fun l => (jsSetList s.guesses ++ [c]).contains l)) = true
      · rw [if_pos hwon, if_pos ((all_contains_iff _ _).mp hwon)]
      · rw [if_neg hwon, if_neg (fun hsub => hwon ((all_contains_iff _ _).mpr hsub))]
  · rintro (h | h) raw2 <;> unfold nextState <;> rw [if_pos (by simp [h])]

/-! ### C6 — the reachable-state invariant -/

def neededFinset (p : HangmanPuzzle) : Finset Char := (solutionLetters p.solution).toFinset

/-- The status the spec says is recomputed from the guess set and the
required-letter set. -/
def statusOf (G N : Finset Char) : Status :=
  if N ⊆ G then Status.won
  else if MAX_LIVES ≤ (G \ N).card then Status.lost
  else Status.playing

/-- The inductive invariant of reachable hangman states. -/
def Inv (N : Finset Char) (s : HangmanState) : Prop :=
  s.guesses.Nodup
    ∧ s.wrong = (s.guesses.toFinset \ N).card
    ∧ s.wrong ≤ MAX_LIVES
    ∧ s.status = (if s.guesses = [] then Status.playing else statusOf s.guesses.toFinset N)

theorem inv_initialState (N : Finset Char) : Inv N initialState := by
  refine ⟨List.nodup_nil, by simp [initialState], by simp [initialState, MAX_LIVES], ?_⟩
  simp [initialState]

/-- `nextState` leaves every state satisfying the invariant inside it. -/
theorem inv_nextState (p : HangmanPuzzle) (s : HangmanState) (raw : List Char)
    (h : Inv (neededFinset p) s) : Inv (neededFinset p) (nextState p s raw) := by
  obtain ⟨hnd, hwr, hle, hst⟩ := h
  by_cases hpl : s.status = Status.playing
  case neg =>
    have : nextState p s raw = s := by
      unfold nextState
      rw [if_pos hpl]
    rw [this]
    exact ⟨hnd, hwr, hle, hst⟩
  case pos =>
  rcases hn : normStr raw with _ | ⟨c, rest⟩
  · have : nextState p s raw = s := by
      unfold nextState
      rw [if_neg (by simp [hpl]), hn]
    rw [this]
    exact ⟨hnd, hwr, hle, hst⟩
  rcases rest with _ | ⟨c2, rest2⟩
  case cons.cons =>
    have : nextState p s raw = s := by
      unfold nextState
      rw [if_neg (by simp [hpl]), hn]
    rw [this]
    exact ⟨hnd, hwr, hle, hst⟩
  case cons.nil =>
  by_cases hg : letterRE (normChar c) = true
  case neg =>
    have : nextState p s raw = s := by
      unfold nextState
      rw [if_neg (by simp [hpl]), hn]
      simp only []
      rw [if_pos (by simpa using hg)]
    rw [this]
    exact ⟨hnd, hwr, hle, hst⟩
  case pos =>
  by_cases hmem : c ∈ s.guesses
  case pos =>
    have : nextState p s raw = s := by
      unfold nextState
      rw [if_neg (by simp [hpl]), hn]
      simp only []
      rw [if_neg (by simp [hg]), if_pos (mem_jsSetList.mpr hmem)]
    rw [this]
    exact ⟨hnd, hwr, hle, hst⟩
  case neg =>
  rw [nextState_eq_of_effective p s raw c hpl hn hg hmem, jsSetList_eq_self hnd]
  -- the old wrong count is strictly below the limit while the game runs
  have hlt : s.wrong < MAX_LIVES := by
    by_cases hemp : s.guesses = []
    · rw [hwr, hemp]
      simp [MAX_LIVES]
    · rw [if_neg hemp] at hst
      unfold statusOf at hst
      rw [hpl] at hst
      by_cases h1 : neededFinset p ⊆ s.guesses.toFinset
      · rw [if_pos h1] at hst
        cases hst
      · rw [if_neg h1] at hst
        by_cases h2 : MAX_LIVES ≤ (s.guesses.toFinset \ neededFinset p).card
        · rw [if_pos h2] at hst
          cases hst
        · rw [hwr]
          omega
  have hfin : (s.guesses ++ [c]).toFinset = insert c s.guesses.toFinset := by
    ext x
    simp [or_comm]
  have hwr' : s.wrong + (if c ∈ solutionLetters p.solution then 0 else 1)
      = ((s.guesses ++ [c]).toFinset \ neededFinset p).card := by
    rw [hfin]
    by_cases hcn : c ∈ solutionLetters p.solution
    · rw [if_pos hcn,
        Finset.insert_sdiff_of_mem _ (show c ∈ neededFinset p from List.mem_toFinset.mpr hcn)]
      omega
    · have hcn' : c ∉ neededFinset p := fun hx => hcn (List.mem_toFinset.mp hx)
      have hcg : c ∉ s.guesses.toFinset \ neededFinset p := fun hx =>
        hmem (List.mem_toFinset.mp (Finset.mem_sdiff.mp hx).1)
      rw [if_neg hcn, Finset.insert_sdiff_of_not_mem _ hcn',
        Finset.card_insert_of_not_mem hcg]
      omega
  refine ⟨?_, hwr', ?_, ?_⟩
  · refine List.nodup_append.mpr ⟨hnd, List.nodup_singleton c, ?_⟩
    intro a ha hb
    rw [List.mem_singleton] at hb
    subst hb
    exact hmem ha
  · show s.wrong + (if c ∈ solutionLetters p.solution then 0 else 1) ≤ MAX_LIVES
    by_cases hcn : c ∈ solutionLetters p.solution
    · rw [if_pos hcn]
      omega
    · rw [if_neg hcn]
      omega
  · show (if ((solutionLetters p.solution).all fun l => (s.guesses ++ [c]).contains l) = true
          then Status.won
        else if MAX_LIVES ≤ s.wrong + (if c ∈ solutionLetters p.solution then 0 else 1)
          then Status.lost
        else Status.playing)
      = (if s.guesses ++ [c] = [] then Status.playing
        else statusOf (s.guesses ++ [c]).toFinset (neededFinset p))
    rw [if_neg (show ¬(s.guesses ++ [c] = []) by simp)]
    unfold statusOf
    by_cases hwon : ((solutionLetters p.solution).all
        (fun l => (s.guesses ++ [c]).contains l)) = true
    · rw [if_pos hwon,
        if_pos (show neededFinset p ⊆ (s.guesses ++ [c]).toFinset from
          (all_contains_iff _ _).mp hwon)]
    · rw [if_neg hwon,
        if_neg (show ¬ neededFinset p ⊆ (s.guesses ++ [c]).toFinset from
          fun hsub => hwon ((all_contains_iff _ _).mpr hsub)), hwr']

/-- Every state reached by folding guesses from the fresh state satisfies
the invariant. -/
theorem inv_foldl (p : HangmanPuzzle) (inputs : List (List Char)) :
    ∀ s, Inv (neededFinset p) s → Inv (neededFinset p) (inputs.foldl (nextState p) s) := by
  induction inputs with
  | nil => exact fun s h => h
  | cons raw rest ih => exact fun s h => ih _ (inv_nextState p s raw h)

theorem inv_run (p : HangmanPuzzle) (inputs : List (List Char)) :
    Inv (neededFinset p) (run p inputs) :=
  inv_foldl p inputs initialState (inv_initialState _)

/-- C6: for every state reachable from the initial state by a sequence of
guesses, `wrong` equals the number of guessed letters outside the solution's
required-letter set and lies in `0..6`; and the status of a reachable state
is determined by the guess set together with the required-letter set alone —
two reachable states (on puzzles with the same required letters) with the
same guess set always carry the same status. -/
theorem run_invariant (p p2 : HangmanPuzzle) (inputs inputs2 : List (List Char))
    (hN : solutionLetters p2.solution = solutionLetters p.solution)
    (hG : (run p2 inputs2).guesses.toFinset = (run p inputs).guesses.toFinset) :
    (run p inputs).wrong
        = ((run p inputs).guesses.toFinset \ (solutionLetters p.solution).toFinset).card
      ∧ (run p inputs).wrong ≤ 6
      ∧ (run p2 inputs2).status = (run p inputs).status := by
  obtain ⟨hnd1, hw1, hl1, hs1⟩ := inv_run p inputs
  obtain ⟨hnd2, hw2, hl2, hs2⟩ := inv_run p2 inputs2
  refine ⟨hw1, hl1, ?_⟩
  rw [hs1, hs2]
  have hemp : ((run p2 inputs2).guesses = []) ↔ ((run p inputs).guesses = []) := by
    constructor
    · intro h
      have : (run p inputs).guesses.toFinset = ∅ := by
        rw [← hG, h]
        simp
      simpa [Finset.eq_empty_iff_forall_not_mem, List.eq_nil_iff_forall_not_mem] using this
    · intro h
      have : (run p2 inputs2).guesses.toFinset = ∅ := by
        rw [hG, h]
        simp
      simpa [Finset.eq_empty_iff_forall_not_mem, List.eq_nil_iff_forall_not_mem] using this
  by_cases h : (run p inputs).guesses = []
  · rw [if_pos h, if_pos (hemp.mpr h)]
  · rw [if_neg h, if_neg (fun h2 => h (hemp.mp h2)), hG]
    unfold neededFinset
    rw [hN]

/-- A hangman puzzle with the same required letters as `hangPuzzleA`. -/
def hangPuzzleC : HangmanPuzzle := { id := "h3", solution := "KATTA" }

/-- Witness for C6: two runs on puzzles `KATT`/`KATTA` (same required
letters) guessing `K,x` respectively `X,k` — same guess set, so the same
status, with `wrong = 1 ≤ 6`. -/
theorem run_invariant_witness :
    (run hangPuzzleA [['K'], ['x']]).wrong
        = ((run hangPuzzleA [['K'], ['x']]).guesses.toFinset
            \ (solutionLetters hangPuzzleA.solution).toFinset).card
      ∧ (run hangPuzzleA [['K'], ['x']]).wrong ≤ 6
      ∧ (run hangPuzzleC [['X'], ['k']]).status = (run hangPuzzleA [['K'], ['x']]).status :=
  run_invariant hangPuzzleA hangPuzzleC [['K'], ['x']] [['X'], ['k']] (by decide) (by decide)

end FFF
